import Mathlib

/-!
Shallow embedding of the VoidFinder core (`empty_folder_finder.py`):
the two-pass empty-folder scan worker with cooperative cancellation and
batched progress events, the folder-size calculator, the move-to-trash
batch with per-path re-verification, and the queue-draining consumer
that populates the result view.
-/

namespace VoidFinder

/-- The module-level `IGNORED_ITEMS` list: system files ignored when
judging emptiness. -/
def IGNORED_ITEMS : List String := [".DS_Store", "Thumbs.db", "desktop.ini"]

/-- A directory tree: node name, immediate file names, immediate
subdirectory subtrees.  Models the filesystem as seen by `os.walk`. -/
inductive FSTree where
  | mk (name : String) (files : List String) (subdirs : List FSTree)

def FSTree.name : FSTree → String
  | .mk n _ _ => n

def FSTree.files : FSTree → List String
  | .mk _ fs _ => fs

def FSTree.subdirs : FSTree → List FSTree
  | .mk _ _ subs => subs

/-- One triple yielded by `os.walk`: (dirpath, subdirectory names, file names). -/
abbrev Frame := String × List String × List String

mutual
/-- `os.walk(p)` with the default top-down order: the node itself first,
then each child subtree in order.  `p` is the full path of the node. -/
def walkTD (p : String) : FSTree → List Frame
  | .mk _ files subs => (p, subs.map FSTree.name, files) :: walkTDList p subs
def walkTDList (p : String) : List FSTree → List Frame
  | [] => []
  | c :: cs => walkTD (p ++ "/" ++ c.name) c ++ walkTDList p cs
end

mutual
/-- `os.walk(p, topdown=False)`: every child subtree (bottom-up) first,
the node itself last. -/
def walkBU (p : String) : FSTree → List Frame
  | .mk _ files subs => walkBUList p subs ++ [(p, subs.map FSTree.name, files)]
def walkBUList (p : String) : List FSTree → List Frame
  | [] => []
  | c :: cs => walkBU (p ++ "/" ++ c.name) c ++ walkBUList p cs
end

mutual
/-- Number of directories in a tree, the root included. -/
def numNodes : FSTree → Nat
  | .mk _ _ subs => 1 + numNodesList subs
def numNodesList : List FSTree → Nat
  | [] => 0
  | c :: cs => numNodes c + numNodesList cs
end

/-- Number of proper subdirectories of the root (the root not counted):
what pass 1 of the scan sums up. -/
def properSubdirCount (t : FSTree) : Nat := numNodesList t.subdirs

/-- Messages put on the worker-to-consumer queue by `scan_thread_worker`. -/
inductive Event where
  | status (text : String)
  | max (n : Nat)
  | progress (n : Nat)
  | done (results : List String)
  | cancelled
  | error (msg : String)
deriving DecidableEq, Repr

def Event.isStatus : Event → Bool
  | .status _ => true
  | _ => false

def Event.isMax : Event → Bool
  | .max _ => true
  | _ => false

def Event.isProgress : Event → Bool
  | .progress _ => true
  | _ => false

def Event.isDone : Event → Bool
  | .done _ => true
  | _ => false

/-- Terminal events: `done`, `cancelled`, `error`. -/
def Event.isTerminal : Event → Bool
  | .done _ => true
  | .cancelled => true
  | .error _ => true
  | _ => false

/-- The cooperative cancellation flag.  Worker steps are numbered, and the
flag parameter `s` is the first step at which `cancel_event.is_set()`
observes the flag set (`none`: never cancelled).  The flag is monotone:
once set it stays set. -/
def cancelSet : Option Nat → Nat → Bool
  | none, _ => false
  | some v, step => decide (v ≤ step)

/-- Pass 1 of `scan_thread_worker`: walk the tree counting subdirectories,
checking the cancellation flag once per yielded directory.  Returns
`none` when cancelled (the worker then emits `cancelled` and returns),
else `some total_dirs`. -/
def pass1 (s : Option Nat) : List Frame → Nat → Nat → Option Nat
  | [], _, total => some total
  | (_, dirs, _) :: _rest, step, total =>
    if cancelSet s step then none
    else pass1 s _rest (step + 1) (total + dirs.length)

/-- The emptiness test of the classify pass, line for line:
`not dirs and not non_ignored_files` where
`non_ignored_files = [f for f in files if f not in IGNORED_ITEMS]`. -/
def scanCond (dirs files : List String) : Bool :=
  dirs.isEmpty && (files.filter (fun f => !(IGNORED_ITEMS.contains f))).isEmpty

/-- Pass 2 of `scan_thread_worker`: bottom-up walk collecting empty
folders, checking the cancellation flag once per directory, emitting a
`progress`/`status` pair every 500 processed directories, and `done`
with the collected results at the end.  Returns the emitted events
together with the final `processed_dirs` counter and the collected
`empty_folders` list. -/
def pass2 (s : Option Nat) :
    List Frame → Nat → Nat → List String → List Event × Nat × List String
  | [], _, processed, acc => ([Event.done acc], processed, acc)
  | (root, dirs, files) :: rest, step, processed, acc =>
    if cancelSet s step then ([Event.cancelled], processed, acc)
    else
      let processed' := processed + 1
      let acc' := if scanCond dirs files then acc ++ [root] else acc
      let evs :=
        if processed' % 500 == 0 then
          [Event.progress processed', Event.status ("Scanning:\n" ++ root)]
        else []
      let r := pass2 s rest (step + 1) processed' acc'
      (evs ++ r.1, r.2.1, r.2.2)

/-- The full worker: initial status event, pass 1 (count), `max` event,
pass 2 (classify).  Steps are numbered so that pass-1 check `i` is step
`i`, the `max` emission is step `k`, and pass-2 check `j` is step
`k + 1 + j`, where `k` is the number of directories pass 1 visits; a
cancellation signalled at position `s ≤ k` therefore arrives before the
`max` event is emitted. -/
def scan_thread_worker (p : String) (t : FSTree) (s : Option Nat) : List Event :=
  Event.status "Pre-scanning to count items..." ::
    match pass1 s (walkTD p t) 0 0 with
    | none => [Event.cancelled]
    | some total =>
        Event.max total :: (pass2 s (walkBU p t) ((walkTD p t).length + 1) 0 []).1

/-- The result list an uncancelled scan delivers in its `done` event. -/
def scanResults (p : String) (t : FSTree) : List String :=
  (pass2 none (walkBU p t) ((walkTD p t).length + 1) 0 []).2.2

/-- Modelled from the spec: the spec's own emptiness wording, for
comparison with `scanCond` — "D's immediate children consist only of
names in IgnoreSet (possibly zero children)", with no distinction
between subdirectory and file children. -/
def specEffectivelyEmpty (dirs files : List String) : Bool :=
  (dirs ++ files).all (fun n => IGNORED_ITEMS.contains n)

/-! ## SizeCalculator: `get_folder_size` -/

/-- One file entry as `get_folder_size` sees it: its name, whether
`os.path.islink` holds, and `some size` when `os.path.getsize` succeeds
or `none` when it raises `OSError`. -/
structure SizeEntry where
  name : String
  isLink : Bool
  size : Option Nat
deriving DecidableEq, Repr

/-- A directory tree carrying file metadata, for the size walk. -/
inductive SizeTree where
  | mk (files : List SizeEntry) (subdirs : List SizeTree)

/-- The inner loop of `get_folder_size` over one directory's file list:
skip links, absorb a failing `getsize` silently (`except OSError: pass`). -/
def dirFilesSize (files : List SizeEntry) : Nat :=
  files.foldl (fun acc e => if e.isLink then acc else acc + e.size.getD 0) 0

mutual
/-- Sum of `dirFilesSize` over every directory `os.walk` yields. -/
def sizeTreeTotal : SizeTree → Nat
  | .mk files subs => dirFilesSize files + sizeTreeListTotal subs
def sizeTreeListTotal : List SizeTree → Nat
  | [] => 0
  | t :: ts => sizeTreeTotal t + sizeTreeListTotal ts
end

/-- `get_folder_size`: `none` models an inaccessible root (the walk yields
nothing / raises, absorbed by the outer `except OSError`), giving total 0. -/
def get_folder_size : Option SizeTree → Nat
  | none => 0
  | some t => sizeTreeTotal t

/-! ## TrashOperation: `move_selected_to_trash` -/

/-- The filesystem state of one candidate path at action time:
`missing` when `os.path.exists` is false; otherwise the fresh
`os.listdir` entries together with `some detail` when `send2trash`
would raise (with `str(e) = detail`) or `none` when it would succeed. -/
inductive PathState where
  | missing
  | present (entries : List String) (moveError : Option String)

/-- The re-verification test of the trash loop, line for line:
`non_ignored_contents = [item for item in current_contents if item not in
IGNORED_ITEMS]` is empty.  Every listed entry — file or subdirectory —
goes through the ignore filter. -/
def trashCond (entries : List String) : Bool :=
  (entries.filter (fun item => !(IGNORED_ITEMS.contains item))).isEmpty

/-- Per-path outcome recorded in the summary. -/
inductive TrashOutcome where
  | moved
  | failed (reason : String)
deriving DecidableEq, Repr

/-- One iteration of the trash loop on one path, given that path's
action-time state.  Returns the outcome together with whether the
`send2trash` primitive was invoked. -/
def move_one : PathState → TrashOutcome × Bool
  | .missing => (.failed "Folder not found (already moved or deleted).", false)
  | .present entries moveError =>
    if trashCond entries then
      match moveError with
      | none => (.moved, true)
      | some e => (.failed e, true)
    else (.failed "No longer empty.", false)

/-- One iteration of the trash batch loop: append the path to
`successful_moves` on success, its (path, reason) pair to `failed_moves`
on failure. -/
def trashStep (fs : String → PathState)
    (res : List String × List (String × String)) (p : String) :
    List String × List (String × String) :=
  match move_one (fs p) with
  | (.moved, _) => (res.1 ++ [p], res.2)
  | (.failed r, _) => (res.1, res.2 ++ [(p, r)])

/-- The trash batch loop of `move_selected_to_trash`: fold over the
selected paths in order, starting from two empty lists.  `fs` gives each
path's action-time state. -/
def move_selected_to_trash (fs : String → PathState) (paths : List String) :
    List String × List (String × String) :=
  paths.foldl (trashStep fs) ([], [])

/-- The combined per-path ledger: one outcome per input path, in input
order. -/
def trashLedger (fs : String → PathState) (paths : List String) :
    List (String × TrashOutcome) :=
  paths.map (fun p => (p, (move_one (fs p)).1))

/-! ## Consumer side: `process_queue` and `populate_results_in_listbox` -/

/-- Insertion step for the model of Python's `sorted` on strings. -/
def insertSorted (x : String) : List String → List String
  | [] => [x]
  | y :: ys => if x ≤ y then x :: y :: ys else y :: insertSorted x ys

/-- `sorted(empty_folders)`: lexicographic insertion sort. -/
def sortStrings (l : List String) : List String := l.foldr insertSorted []

/-- The persistent main-window state `populate_results_in_listbox`
writes: the result listbox, the status label text, and whether the
Browse button is re-enabled. -/
structure UIState where
  listbox : List String
  labelText : String
  browseEnabled : Bool
deriving DecidableEq, Repr

/-- `populate_results_in_listbox`, line for line: clear the listbox,
insert the sorted folders and report their count when nonempty, else
report "No empty folders found."; re-enable Browse either way. -/
def populate_results_in_listbox (folders : List String) : UIState :=
  if folders.isEmpty then
    { listbox := [], labelText := "No empty folders found.", browseEnabled := true }
  else
    { listbox := sortStrings folders,
      labelText := "Found " ++ toString folders.length ++ " empty folders.",
      browseEnabled := true }

/-- The consumer-visible state `process_queue` drives: the progress
window's bar and status label, the populated main-window state once a
`done`/`error` message arrives (`none` before that), and the transient
error dialogs shown so far. -/
structure ConsumerState where
  progressMax : Nat
  progressValue : Nat
  statusText : String
  ui : Option UIState
  dialogs : List String
deriving DecidableEq, Repr

/-- Consumer state before any message is processed. -/
def initConsumer : ConsumerState :=
  { progressMax := 0, progressValue := 0, statusText := "Initializing scan..."
  , ui := none, dialogs := [] }

/-- One `process_queue` dispatch on one dequeued message, branch for
branch: `max` sets the bar maximum (at least 1), `progress` the bar
value, `status` the label; `done` populates the results; `cancelled`
changes nothing and stops; `error` shows an error dialog with the reason
and then populates from the empty list. -/
def process_queue_msg (st : ConsumerState) : Event → ConsumerState
  | .max v => { st with progressMax := if v > 0 then v else 1 }
  | .progress v => { st with progressValue := v }
  | .status v => { st with statusText := v }
  | .done v => { st with ui := some (populate_results_in_listbox v) }
  | .cancelled => st
  | .error v =>
    { st with
      dialogs := st.dialogs ++ ["An error occurred during scanning:\n" ++ v]
      ui := some (populate_results_in_listbox []) }

/-- The `process_queue` polling loop draining the worker's queue.  Each
tick first checks the shared cancellation flag and returns at once when
it is set — `if cancel_event.is_set(): return` — delivering nothing
further; otherwise it dequeues and dispatches one message, and the
`done`/`cancelled`/`error` branches return (any later reschedule finds
the queue empty, changing nothing).  `c` is the first tick at which the
flag is observable on the consumer timeline (`none`: never), `tick` the
current tick.  Returns the final consumer state together with the list
of messages actually delivered (dispatched to `process_queue_msg`). -/
def process_queue_run (c : Option Nat) :
    List Event → Nat → ConsumerState → ConsumerState × List Event
  | [], _, st => (st, [])
  | e :: rest, tick, st =>
    if cancelSet c tick then (st, [])
    else
      let st' := process_queue_msg st e
      if e.isTerminal then (st', [e])
      else
        let r := process_queue_run c rest (tick + 1) st'
        (r.1, e :: r.2)

/-! ## Helper lemmas about the walks -/

/-- Total of the `len(dirs)` counts over a list of walk frames: what
pass 1 accumulates. -/
def sumDirs (l : List Frame) : Nat := (l.map (fun fr => fr.2.1.length)).sum

theorem sumDirs_append (a b : List Frame) :
    sumDirs (a ++ b) = sumDirs a + sumDirs b := by
  simp [sumDirs]

mutual
theorem sumDirs_walkTD (p : String) (t : FSTree) :
    sumDirs (walkTD p t) + 1 = numNodes t := by
  cases t with
  | mk n fs subs =>
    have h := sumDirs_walkTDList p subs
    simp only [walkTD, numNodes, sumDirs, List.map_cons, List.sum_cons,
      List.length_map] at *
    omega
theorem sumDirs_walkTDList (p : String) (cs : List FSTree) :
    sumDirs (walkTDList p cs) + cs.length = numNodesList cs := by
  cases cs with
  | nil => simp [walkTDList, numNodesList, sumDirs]
  | cons c cs' =>
    have h1 := sumDirs_walkTD (p ++ "/" ++ c.name) c
    have h2 := sumDirs_walkTDList p cs'
    simp only [walkTDList, numNodesList, sumDirs_append, List.length_cons] at *
    omega
end

mutual
theorem walkBU_length (p : String) (t : FSTree) :
    (walkBU p t).length = numNodes t := by
  cases t with
  | mk n fs subs =>
    have h := walkBUList_length p subs
    simp only [walkBU, numNodes, List.length_append, List.length_singleton] at *
    omega
theorem walkBUList_length (p : String) (cs : List FSTree) :
    (walkBUList p cs).length = numNodesList cs := by
  cases cs with
  | nil => simp [walkBUList, numNodesList]
  | cons c cs' =>
    have h1 := walkBU_length (p ++ "/" ++ c.name) c
    have h2 := walkBUList_length p cs'
    simp only [walkBUList, numNodesList, List.length_append] at *
    omega
end

theorem walkTD_ne_nil (p : String) (t : FSTree) : walkTD p t ≠ [] := by
  cases t with
  | mk n fs subs => simp [walkTD]

theorem walkBU_ne_nil (p : String) (t : FSTree) : walkBU p t ≠ [] := by
  cases t with
  | mk n fs subs => simp [walkBU]

/-! ## Helper lemmas about pass 1 and pass 2 -/

theorem pass1_none_eval (frames : List Frame) (step total : Nat) :
    pass1 none frames step total = some (total + sumDirs frames) := by
  induction frames generalizing step total with
  | nil => simp [pass1, sumDirs]
  | cons f rest ih =>
    obtain ⟨r, dirs, files⟩ := f
    simp only [pass1, cancelSet, Bool.false_eq_true, if_false, ih, sumDirs,
      List.map_cons, List.sum_cons]
    congr 1
    omega

theorem pass1_eq_none_iff (v : Nat) (frames : List Frame) (step total : Nat) :
    pass1 (some v) frames step total = none ↔
      (0 < frames.length ∧ v < step + frames.length) := by
  induction frames generalizing step total with
  | nil => simp [pass1]
  | cons f rest ih =>
    obtain ⟨r, dirs, files⟩ := f
    by_cases hv : v ≤ step
    · simp only [pass1, cancelSet, decide_eq_true_eq, if_pos hv, List.length_cons]
      constructor
      · intro _; omega
      · intro _; trivial
    · simp only [pass1, cancelSet, decide_eq_true_eq, if_neg hv, List.length_cons, ih]
      omega

theorem pass2_results (frames : List Frame) (step processed : Nat) (acc : List String) :
    (pass2 none frames step processed acc).2.2 =
      acc ++ frames.filterMap
        (fun fr => if scanCond fr.2.1 fr.2.2 then some fr.1 else none) := by
  induction frames generalizing step processed acc with
  | nil => simp [pass2]
  | cons f rest ih =>
    obtain ⟨r, dirs, files⟩ := f
    simp only [pass2, cancelSet, Bool.false_eq_true, if_false, List.filterMap_cons]
    by_cases hc : scanCond dirs files = true
    · simp [hc, ih, List.append_assoc]
    · simp only [Bool.not_eq_true] at hc
      simp [hc, ih]

theorem pass2_processed (frames : List Frame) (step processed : Nat) (acc : List String) :
    (pass2 none frames step processed acc).2.1 = processed + frames.length := by
  induction frames generalizing step processed acc with
  | nil => simp [pass2]
  | cons f rest ih =>
    obtain ⟨r, dirs, files⟩ := f
    simp only [pass2, cancelSet, Bool.false_eq_true, if_false, ih, List.length_cons]
    omega

theorem pass2_progress_mem (n : Nat) (frames : List Frame) (step processed : Nat)
    (acc : List String) :
    Event.progress n ∈ (pass2 none frames step processed acc).1 ↔
      (n % 500 = 0 ∧ processed < n ∧ n ≤ processed + frames.length) := by
  induction frames generalizing step processed acc with
  | nil =>
    simp only [pass2, List.mem_singleton, List.length_nil, Nat.add_zero]
    constructor
    · intro h; simp at h
    · intro h; omega
  | cons f rest ih =>
    obtain ⟨r, dirs, files⟩ := f
    simp only [pass2, cancelSet, Bool.false_eq_true, if_false, List.mem_append, ih,
      List.length_cons]
    by_cases hb : (processed + 1) % 500 = 0
    · have hbe : ((processed + 1) % 500 == 0) = true := by simp [hb]
      simp only [hbe, if_true, List.mem_cons, List.not_mem_nil, or_false]
      constructor
      · rintro ((h | h) | h)
        · have hn : n = processed + 1 := by injection h
          subst hn
          exact ⟨hb, by omega, by omega⟩
        · exact absurd h (by simp)
        · omega
      · rintro ⟨h1, h2, h3⟩
        by_cases hn : n = processed + 1
        · subst hn; exact Or.inl (Or.inl rfl)
        · exact Or.inr (by omega)
    · have hbe : ((processed + 1) % 500 == 0) = false := by simp [hb]
      simp only [hbe, Bool.false_eq_true, if_false, List.not_mem_nil, false_or,
        List.nil_append]
      constructor
      · rintro ⟨h1, h2, h3⟩
        exact ⟨h1, by omega, by omega⟩
      · rintro ⟨h1, h2, h3⟩
        exact ⟨h1, by omega, by omega⟩

/-! ## Event-stream shape -/

/-- Checks the event-stream tail after `max`: zero or more
progress/status events, then exactly one terminal event ending the
stream. -/
def wfTail : List Event → Bool
  | [] => false
  | e :: rest =>
    if e.isTerminal then rest.isEmpty
    else (e.isProgress || e.isStatus) && wfTail rest

/-- Checks the whole event stream: zero or more status events, then
either a single `max` event followed by a `wfTail` tail, or a terminal
event ending the stream at once. -/
def wfTrace : List Event → Bool
  | [] => false
  | e :: rest =>
    if e.isStatus then wfTrace rest
    else if e.isMax then wfTail rest
    else e.isTerminal && rest.isEmpty

theorem wfTail_pass2 (s : Option Nat) (frames : List Frame) (step processed : Nat)
    (acc : List String) :
    wfTail (pass2 s frames step processed acc).1 = true := by
  induction frames generalizing step processed acc with
  | nil => simp [pass2, wfTail, Event.isTerminal]
  | cons f rest ih =>
    obtain ⟨r, dirs, files⟩ := f
    by_cases hc : cancelSet s step = true
    · simp [pass2, hc, wfTail, Event.isTerminal]
    · simp only [Bool.not_eq_true] at hc
      simp only [pass2, hc, Bool.false_eq_true, if_false]
      by_cases hb : ((processed + 1) % 500 == 0) = true
      · simp only [hb, if_true, List.cons_append, List.nil_append]
        simp [wfTail, Event.isTerminal, Event.isProgress, Event.isStatus, ih]
      · simp only [Bool.not_eq_true] at hb
        simp only [hb, Bool.false_eq_true, if_false, List.nil_append]
        exact ih _ _ _

theorem pass2_no_done_of_cancelled (s : Option Nat) (frames : List Frame)
    (step processed : Nat) (acc : List String) (f : Frame) (rest : List Frame)
    (hf : frames = f :: rest) (hc : cancelSet s step = true) :
    (pass2 s frames step processed acc).1 = [Event.cancelled] := by
  subst hf
  obtain ⟨r, dirs, files⟩ := f
  simp [pass2, hc]

theorem pass2_ne_nil (s : Option Nat) (frames : List Frame) (step processed : Nat)
    (acc : List String) : (pass2 s frames step processed acc).1 ≠ [] := by
  induction frames generalizing step processed acc with
  | nil => simp [pass2]
  | cons f rest ih =>
    obtain ⟨rt, dirs, files⟩ := f
    by_cases hc : cancelSet s step = true
    · simp [pass2, hc]
    · simp only [Bool.not_eq_true] at hc
      simp only [pass2, hc, Bool.false_eq_true, if_false]
      by_cases hb : ((processed + 1) % 500 == 0) = true
      · simp [hb]
      · simp only [Bool.not_eq_true] at hb
        simp only [hb, Bool.false_eq_true, if_false, List.nil_append]
        exact ih _ _ _

theorem getLast?_cons_cons_of_ne_nil (a b : Event) (l : List Event) (h : l ≠ []) :
    (a :: b :: l).getLast? = l.getLast? := by
  rw [show a :: b :: l = [a, b] ++ l from rfl, List.getLast?_append_of_ne_nil _ h]

/-- Once pass 2 has emitted `cancelled` — the worker acknowledged the
cancellation — its event list ends with `cancelled` and holds no `done`
event. -/
theorem pass2_cancelled_spec (s : Option Nat) (frames : List Frame) (step processed : Nat)
    (acc : List String)
    (h : Event.cancelled ∈ (pass2 s frames step processed acc).1) :
    (pass2 s frames step processed acc).1.getLast? = some Event.cancelled ∧
    (pass2 s frames step processed acc).1.all (fun e => !e.isDone) = true := by
  induction frames generalizing step processed acc with
  | nil =>
    rw [pass2] at h
    simp at h
  | cons f rest ih =>
    obtain ⟨rt, dirs, files⟩ := f
    by_cases hc : cancelSet s step = true
    · simp [pass2, hc, Event.isDone]
    · simp only [Bool.not_eq_true] at hc
      simp only [pass2, hc, Bool.false_eq_true, if_false] at h ⊢
      by_cases hb : ((processed + 1) % 500 == 0) = true
      · simp only [hb, if_true, List.cons_append, List.nil_append] at h ⊢
        simp only [List.mem_cons] at h
        rcases h with h | h | h
        · exact absurd h (by simp)
        · exact absurd h (by simp)
        · obtain ⟨h1, h2⟩ := ih _ _ _ h
          refine ⟨?_, ?_⟩
          · rw [getLast?_cons_cons_of_ne_nil _ _ _ (pass2_ne_nil _ _ _ _ _)]
            exact h1
          · simp only [List.all_cons, Bool.and_eq_true]
            exact ⟨rfl, rfl, h2⟩
      · simp only [Bool.not_eq_true] at hb
        simp only [hb, Bool.false_eq_true, if_false, List.nil_append] at h ⊢
        exact ih _ _ _ h

/-- Every message the polling loop delivers came from the queue: a
predicate holding on all queued messages holds on all delivered ones. -/
theorem process_queue_run_all (q : Event → Bool) (c : Option Nat) (evs : List Event)
    (tick : Nat) (st : ConsumerState) (h : evs.all q = true) :
    (process_queue_run c evs tick st).2.all q = true := by
  induction evs generalizing tick st with
  | nil => simp [process_queue_run]
  | cons e rest ih =>
    simp only [List.all_cons, Bool.and_eq_true] at h
    by_cases hc : cancelSet c tick = true
    · simp [process_queue_run, hc]
    · simp only [Bool.not_eq_true] at hc
      simp only [process_queue_run, hc, Bool.false_eq_true, if_false]
      by_cases ht : e.isTerminal = true
      · simp [ht, List.all_cons, h.1]
      · simp only [Bool.not_eq_true] at ht
        simp only [ht, Bool.false_eq_true, if_false]
        simp [List.all_cons, h.1, ih _ _ h.2]

/-- The guard at the head of `process_queue`: once the cancellation flag
is observable, the loop returns at once — the consumer state is
unchanged and nothing further is delivered. -/
theorem process_queue_run_guard (c : Option Nat) (evs : List Event) (tick : Nat)
    (st : ConsumerState) (h : cancelSet c tick = true) :
    process_queue_run c evs tick st = (st, []) := by
  cases evs with
  | nil => rfl
  | cons e rest => simp [process_queue_run, h]

/-! ## Trash-batch helper lemmas -/

theorem filter_isEmpty_eq_all {α : Type} (p : α → Bool) (l : List α) :
    (l.filter p).isEmpty = l.all (fun x => !p x) := by
  induction l with
  | nil => rfl
  | cons x xs ih => cases hx : p x <;> simp [List.filter, hx, ih]

/-- `trashCond` in the spec's vocabulary: no listed entry falls outside
the ignore set. -/
theorem trashCond_eq_all (entries : List String) :
    trashCond entries = entries.all (fun x => IGNORED_ITEMS.contains x) := by
  rw [trashCond, filter_isEmpty_eq_all]
  simp

/-- The paths recorded in `successful_moves`: exactly the input paths
whose outcome is `moved`, in input order. -/
def succList (fs : String → PathState) (paths : List String) : List String :=
  paths.filter (fun p => decide ((move_one (fs p)).1 = TrashOutcome.moved))

/-- The pairs recorded in `failed_moves`: exactly the input paths whose
outcome is a failure, with their reasons, in input order. -/
def failList (fs : String → PathState) (paths : List String) :
    List (String × String) :=
  paths.filterMap (fun p =>
    match (move_one (fs p)).1 with
    | .moved => none
    | .failed r => some (p, r))

theorem trash_foldl_eval (fs : String → PathState) (paths : List String)
    (s0 : List String) (f0 : List (String × String)) :
    paths.foldl (trashStep fs) (s0, f0) =
      (s0 ++ succList fs paths, f0 ++ failList fs paths) := by
  induction paths generalizing s0 f0 with
  | nil => simp [succList, failList]
  | cons p ps ih =>
    simp only [List.foldl_cons]
    rcases hm : move_one (fs p) with ⟨o, b⟩
    cases o with
    | moved =>
      simp only [trashStep, hm, ih, succList, failList, List.filter_cons,
        List.filterMap_cons, hm]
      simp [hm, List.append_assoc]
    | failed r =>
      simp only [trashStep, hm, ih, succList, failList, List.filter_cons,
        List.filterMap_cons, hm]
      simp [hm, List.append_assoc]

theorem succ_fail_length (fs : String → PathState) (paths : List String) :
    (succList fs paths).length + (failList fs paths).length = paths.length := by
  induction paths with
  | nil => rfl
  | cons p ps ih =>
    rcases hm : (move_one (fs p)).1 with _ | r <;>
      simp [succList, failList, List.filter_cons, List.filterMap_cons, hm] at * <;>
      omega

/-! ## Size-calculator helper lemmas -/

theorem dirFilesSize_cons_link (e : SizeEntry) (files : List SizeEntry)
    (h : e.isLink = true) :
    dirFilesSize (e :: files) = dirFilesSize files := by
  simp [dirFilesSize, List.foldl_cons, h]

theorem dirFilesSize_cons_errored (e : SizeEntry) (files : List SizeEntry)
    (h : e.size = none) :
    dirFilesSize (e :: files) = dirFilesSize files := by
  cases hl : e.isLink <;> simp [dirFilesSize, List.foldl_cons, h, hl]

theorem succList_eq_ledger_filter (fs : String → PathState) (paths : List String) :
    succList fs paths
      = ((trashLedger fs paths).filter
          (fun e => decide (e.2 = TrashOutcome.moved))).map Prod.fst := by
  induction paths with
  | nil => rfl
  | cons p ps ih =>
    by_cases hm : (move_one (fs p)).1 = TrashOutcome.moved <;>
      simp [succList, trashLedger, List.filter_cons, hm] at * <;>
      simpa [succList, trashLedger] using ih

theorem failList_eq_ledger_filterMap (fs : String → PathState) (paths : List String) :
    failList fs paths
      = (trashLedger fs paths).filterMap
          (fun e => match e.2 with
            | .moved => none
            | .failed r => some (e.1, r)) := by
  induction paths with
  | nil => rfl
  | cons p ps ih =>
    rcases hm : (move_one (fs p)).1 with _ | r <;>
      simp [failList, trashLedger, List.filterMap_cons, hm] at * <;>
      simpa [failList, trashLedger] using ih

/-! ## Concrete trees used by several claims -/

/-- The spec's scenario tree `/root/{a/ (empty), b/{.DS_Store}, c/{file.txt}}`. -/
def demoTree : FSTree :=
  .mk "root" []
    [.mk "a" [] [], .mk "b" [".DS_Store"] [], .mk "c" ["file.txt"] []]

/-- A directory whose only immediate child is a subdirectory named
`.DS_Store`: every child name is in the ignore set, yet a subdirectory
is present. -/
def nestedIgnoredTree : FSTree := .mk "r" [] [.mk ".DS_Store" [] []]

/-- A tree consisting of the root directory alone. -/
def singleDirTree : FSTree := .mk "r" [] []

/-! ## Claims -/

/-- Claim C1, counterexample: for the directory `/r` whose only
immediate child is a subdirectory named `.DS_Store`, every immediate
child name lies in IgnoreSet (so, by the claim, `/r` should be appended
to the result collection), yet the classify pass does not append `/r`:
its test requires the subdirectory list to be empty regardless of
names.  The scan of that tree returns only `/r/.DS_Store`. -/
theorem c1_counterexample :
    specEffectivelyEmpty [".DS_Store"] [] = true ∧
    walkBU "/r" nestedIgnoredTree =
      [("/r/.DS_Store", [], []), ("/r", [".DS_Store"], [])] ∧
    "/r" ∉ scanResults "/r" nestedIgnoredTree ∧
    scanResults "/r" nestedIgnoredTree = ["/r/.DS_Store"] := by
  refine ⟨rfl, rfl, ?_, rfl⟩
  decide

/-- Claim C1, amended: for every directory D visited by the classify
pass, D's path is appended to the result collection if and only if D has
no immediate subdirectories at all and every immediate child file's name
is in IgnoreSet; in particular, for the scenario tree rooted at `/root`
with children `a` (empty), `b` (holding only `.DS_Store`) and `c`
(holding `file.txt`), the scan result is exactly `/root/a` and
`/root/b`. -/
theorem c1_amended :
    (∀ (p : String) (t : FSTree),
      scanResults p t = (walkBU p t).filterMap
        (fun fr => if scanCond fr.2.1 fr.2.2 then some fr.1 else none)) ∧
    scanResults "/root" demoTree = ["/root/a", "/root/b"] := by
  constructor
  · intro p t
    rw [scanResults, pass2_results]
    simp
  · rfl

/-- Claim C2: per input path, the move-to-trash operation fails with the
not-found reason when the path no longer exists (move primitive not
invoked); otherwise the move primitive is invoked exactly when every
entry of the fresh action-time listing is in IgnoreSet, in which case
the outcome is `moved` on success and a failure carrying the primitive's
error detail on error; when some fresh entry is not in IgnoreSet the
outcome is the "No longer empty." failure and the primitive is not
invoked.  The decision depends only on the action-time `PathState`,
never on the scan-time result. -/
theorem c2_reverification (entries : List String) (me : Option String) :
    move_one PathState.missing
        = (TrashOutcome.failed "Folder not found (already moved or deleted).", false) ∧
    (move_one (PathState.present entries me)).2
        = entries.all (fun x => IGNORED_ITEMS.contains x) ∧
    (move_one (PathState.present entries me)).1
        = (if entries.all (fun x => IGNORED_ITEMS.contains x) then
            (match me with
              | none => TrashOutcome.moved
              | some e => TrashOutcome.failed e)
          else TrashOutcome.failed "No longer empty.") := by
  refine ⟨rfl, ?_, ?_⟩ <;> rw [← trashCond_eq_all] <;>
    by_cases h : trashCond entries = true
  · cases me <;> simp [move_one, h]
  · simp only [Bool.not_eq_true] at h
    simp [move_one, h]
  · cases me <;> simp [move_one, h]
  · simp only [Bool.not_eq_true] at h
    simp [move_one, h]

/-- Claim C3: the trash batch processes every input path regardless of
individual failures: the fold over the whole input list yields exactly
the `moved` paths and the (path, reason) failures, each input path
landing in exactly one of the two (their lengths sum to the input
length), both in input order; equivalently the combined ledger has
exactly one outcome per input path, in input order, and the two recorded
lists are its projections. -/
theorem c3_batch_isolation (fs : String → PathState) (paths : List String) :
    move_selected_to_trash fs paths = (succList fs paths, failList fs paths) ∧
    (move_selected_to_trash fs paths).1.length
        + (move_selected_to_trash fs paths).2.length = paths.length ∧
    (trashLedger fs paths).length = paths.length ∧
    succList fs paths
        = ((trashLedger fs paths).filter
            (fun e => decide (e.2 = TrashOutcome.moved))).map Prod.fst ∧
    failList fs paths
        = (trashLedger fs paths).filterMap
            (fun e => match e.2 with
              | .moved => none
              | .failed r => some (e.1, r)) := by
  have h1 : move_selected_to_trash fs paths = (succList fs paths, failList fs paths) := by
    rw [move_selected_to_trash, trash_foldl_eval]
    simp
  refine ⟨h1, ?_, ?_, succList_eq_ledger_filter fs paths,
    failList_eq_ledger_filterMap fs paths⟩
  · rw [h1]
    exact succ_fail_length fs paths
  · simp [trashLedger]

/-- Claim C4: the size computation returns zero when the root itself is
inaccessible; a symbolic-link entry contributes zero (it is skipped, not
followed); an entry whose size lookup errors contributes zero without
aborting the enclosing computation; and for a directory holding one
2048-byte file and one broken symbolic link the computed size is exactly
2048. -/
theorem c4_size_tolerance (e : SizeEntry) (files : List SizeEntry)
    (subs : List SizeTree) :
    get_folder_size none = 0 ∧
    (e.isLink = true →
      sizeTreeTotal (SizeTree.mk (e :: files) subs)
        = sizeTreeTotal (SizeTree.mk files subs)) ∧
    (e.size = none →
      sizeTreeTotal (SizeTree.mk (e :: files) subs)
        = sizeTreeTotal (SizeTree.mk files subs)) ∧
    get_folder_size
        (some (SizeTree.mk
          [SizeEntry.mk "data.bin" false (some 2048),
           SizeEntry.mk "broken.lnk" true none] []))
      = 2048 := by
  refine ⟨rfl, ?_, ?_, rfl⟩
  · intro h
    simp [sizeTreeTotal, dirFilesSize_cons_link e files h]
  · intro h
    simp [sizeTreeTotal, dirFilesSize_cons_errored e files h]

/-- Claim C4, witness: a broken symbolic link (link flag set, size
lookup failing) contributes zero, and the 2048-byte scenario computes
2048. -/
theorem c4_witness :
    (SizeEntry.mk "broken.lnk" true none).isLink = true ∧
    sizeTreeTotal (SizeTree.mk [SizeEntry.mk "broken.lnk" true none] [])
        = sizeTreeTotal (SizeTree.mk [] []) ∧
    get_folder_size
        (some (SizeTree.mk
          [SizeEntry.mk "data.bin" false (some 2048),
           SizeEntry.mk "broken.lnk" true none] []))
      = 2048 :=
  ⟨rfl, (c4_size_tolerance (SizeEntry.mk "broken.lnk" true none) [] []).2.1 rfl,
   (c4_size_tolerance (SizeEntry.mk "broken.lnk" true none) [] []).2.2.2⟩

/-- Claim C5: whenever the cancellation flag becomes observable at or
before the `max` emission point (so before pass 1's `MaxProgress` event
is emitted), and more generally whenever the worker acknowledged the
cancellation by emitting `cancelled` — whether during pass 1 or pass 2 —
the worker's event stream ends with the `cancelled` terminal event and
contains no `done` (Completed) event at all; consequently, for every
consumer polling schedule, no Completed event is ever delivered, and
from the tick at which the consumer observes the flag (`cancel()`
acknowledged on its side) onward nothing further is delivered at all —
at most the events delivered earlier, never a Completed one. -/
theorem c5_cancellation (p : String) (t : FSTree) (v : Nat) (c : Option Nat)
    (tick : Nat) (st : ConsumerState)
    (h : v ≤ (walkTD p t).length ∨
      Event.cancelled ∈ scan_thread_worker p t (some v)) :
    (scan_thread_worker p t (some v)).getLast? = some Event.cancelled ∧
    (scan_thread_worker p t (some v)).all (fun e => !e.isDone) = true ∧
    (process_queue_run c (scan_thread_worker p t (some v)) tick st).2.all
        (fun e => !e.isDone) = true ∧
    (cancelSet c tick = true →
      process_queue_run c (scan_thread_worker p t (some v)) tick st = (st, [])) := by
  have hw : (scan_thread_worker p t (some v)).getLast? = some Event.cancelled ∧
      (scan_thread_worker p t (some v)).all (fun e => !e.isDone) = true := by
    rcases h with h | h
    · unfold scan_thread_worker
      by_cases hv : v < (walkTD p t).length
      · have h0 : 0 < (walkTD p t).length := List.length_pos.mpr (walkTD_ne_nil p t)
        have hp : pass1 (some v) (walkTD p t) 0 0 = none :=
          (pass1_eq_none_iff v _ 0 0).mpr ⟨h0, by omega⟩
        rw [hp]
        simp [Event.isDone]
      · have hv' : v = (walkTD p t).length := by omega
        have hnone : ¬ pass1 (some v) (walkTD p t) 0 0 = none := by
          rw [pass1_eq_none_iff]
          omega
        cases hp : pass1 (some v) (walkTD p t) 0 0 with
        | none => exact absurd hp hnone
        | some total =>
          rcases hbu : walkBU p t with _ | ⟨f, rest⟩
          · exact absurd hbu (walkBU_ne_nil p t)
          · have hc : cancelSet (some v) ((walkTD p t).length + 1) = true := by
              simp only [cancelSet, decide_eq_true_eq]
              omega
            simp only [hp, hbu]
            rw [pass2_no_done_of_cancelled (some v) (f :: rest)
              ((walkTD p t).length + 1) 0 [] f rest rfl hc]
            simp [Event.isDone]
    · cases hp : pass1 (some v) (walkTD p t) 0 0 with
      | none =>
        simp only [scan_thread_worker, hp]
        exact ⟨rfl, rfl⟩
      | some total =>
        simp only [scan_thread_worker, hp, List.mem_cons] at h
        simp only [scan_thread_worker, hp]
        rcases h with h | h | h
        · exact absurd h (by simp)
        · exact absurd h (by simp)
        · obtain ⟨h1, h2⟩ := pass2_cancelled_spec _ _ _ _ _ h
          constructor
          · rw [getLast?_cons_cons_of_ne_nil _ _ _ (pass2_ne_nil _ _ _ _ _)]
            exact h1
          · simp only [List.all_cons, Bool.and_eq_true]
            exact ⟨rfl, rfl, h2⟩
  exact ⟨hw.1, hw.2, process_queue_run_all _ c _ tick st hw.2,
    fun hc => process_queue_run_guard c _ tick st hc⟩

/-- Claim C5, witness: cancelling a scan of a one-directory tree at
worker step 0 — before its `MaxProgress` event — yields a stream ending
in `cancelled` with no Completed event; a consumer whose flag is already
observable at tick 0 delivers nothing and its state is unchanged. -/
theorem c5_witness :
    (0 ≤ (walkTD "/r" singleDirTree).length ∨
      Event.cancelled ∈ scan_thread_worker "/r" singleDirTree (some 0)) ∧
    ((scan_thread_worker "/r" singleDirTree (some 0)).getLast?
        = some Event.cancelled ∧
      (scan_thread_worker "/r" singleDirTree (some 0)).all (fun e => !e.isDone)
        = true ∧
      (process_queue_run (some 0) (scan_thread_worker "/r" singleDirTree (some 0))
          0 initConsumer).2.all (fun e => !e.isDone) = true ∧
      (cancelSet (some 0) 0 = true →
        process_queue_run (some 0) (scan_thread_worker "/r" singleDirTree (some 0))
            0 initConsumer = (initConsumer, []))) :=
  ⟨Or.inl (by decide),
   c5_cancellation "/r" singleDirTree 0 (some 0) 0 initConsumer (Or.inl (by decide))⟩

/-- Claim C6: every worker run emits a stream of the shape — zero or
more status events, then either a terminal event immediately (the
cancelled-during-pass-1 case) or exactly one `max` event followed by
zero or more progress/status events and exactly one terminal event
(`done`, `cancelled`, or `error`), the terminal event ending the stream;
and the `max` event is present exactly when pass 1 ran to completion,
i.e. absent only if cancellation was observed during pass 1. -/
theorem c6_event_stream_shape (p : String) (t : FSTree) (s : Option Nat) :
    wfTrace (scan_thread_worker p t s) = true ∧
    (scan_thread_worker p t s).any Event.isMax
        = (pass1 s (walkTD p t) 0 0).isSome := by
  unfold scan_thread_worker
  cases hp : pass1 s (walkTD p t) 0 0 with
  | none =>
    simp [wfTrace, Event.isStatus, Event.isMax, Event.isTerminal]
  | some total =>
    constructor
    · simp only [wfTrace, Event.isStatus, if_true, Event.isMax]
      simp [wfTrace, Event.isStatus, Event.isMax, wfTail_pass2]
    · simp [Event.isMax]

/-- Claim C7, counterexample: the scan of a tree consisting of a single
directory completes normally (its terminal event is `done` carrying that
directory), yet its event stream contains no progress event at all: the
final progress state (`processedDirectories = 1`) is never flushed at
completion, because progress is emitted only when the counter is a
multiple of 500. -/
theorem c7_counterexample :
    (scan_thread_worker "/r" singleDirTree none).filter Event.isProgress = [] ∧
    (scan_thread_worker "/r" singleDirTree none).getLast?
      = some (Event.done ["/r"]) := by
  refine ⟨rfl, rfl⟩

/-- Claim C7, amended: during the classify pass, progress events (each
paired with a status event) are emitted exactly when the processed
counter is a nonzero multiple of 500 not exceeding the number of
directories; the final progress state is NOT flushed at completion —
for a tree whose directory count is not a multiple of 500, no progress
event carrying the final count is ever emitted, the `done` terminal
event alone signalling completion. -/
theorem c7_amended (p : String) (t : FSTree) (n : Nat) :
    Event.progress n ∈ scan_thread_worker p t none ↔
      (n % 500 = 0 ∧ 0 < n ∧ n ≤ numNodes t) := by
  unfold scan_thread_worker
  rw [pass1_none_eval]
  simp only [List.mem_cons]
  rw [pass2_progress_mem]
  rw [walkBU_length]
  constructor
  · rintro (h | h | h)
    · exact absurd h (by simp)
    · exact absurd h (by simp)
    · omega
  · intro h
    exact Or.inr (Or.inr (by omega))

/-- Claim C8, counterexample: after the consumer handles the `error`
terminal event of a failed scan, the persistent main-window state it
presents — empty result list, status label "No empty folders found.",
Browse re-enabled — is exactly the state presented after a successful
scan that found zero empty folders, contradicting "never the same". -/
theorem c8_counterexample :
    (process_queue_msg initConsumer (Event.error "boom")).ui
        = (process_queue_msg initConsumer (Event.done [])).ui ∧
    (process_queue_msg initConsumer (Event.error "boom")).ui
        = some { listbox := [], labelText := "No empty folders found.",
                 browseEnabled := true } := by
  refine ⟨rfl, rfl⟩

/-- Claim C8, amended: when traversal aborts with an unrecoverable
error, the worker's terminal event is `error reason` and the consumer,
on handling it, shows a transient error dialog carrying the reason and
discards partial results (the result view is populated from the empty
list); however, the persistent resulting state it then presents is the
same as after a successful scan that found zero empty folders — in
particular the status label reads "No empty folders found.". -/
theorem c8_amended (reason : String) (st : ConsumerState) :
    Event.isTerminal (Event.error reason) = true ∧
    (process_queue_msg st (Event.error reason)).dialogs
        = st.dialogs ++ ["An error occurred during scanning:\n" ++ reason] ∧
    (process_queue_msg st (Event.error reason)).ui
        = some (populate_results_in_listbox []) ∧
    (process_queue_msg st (Event.error reason)).ui
        = (process_queue_msg st (Event.done [])).ui ∧
    populate_results_in_listbox []
        = { listbox := [], labelText := "No empty folders found.",
            browseEnabled := true } :=
  ⟨rfl, rfl, rfl, rfl, rfl⟩

/-- Claim C9: the scan's emptiness test and the trash re-verification
test disagree: for a directory whose sole entry is a subdirectory named
`.DS_Store`, the classify pass judges it not empty (its subdirectory
list is nonempty, so its path is not collected), while the trash
re-verification filters that same name through the ignore set, judges
the directory empty, and invokes the move primitive, which succeeds. -/
theorem c9_scan_vs_reverify_divergence :
    scanCond [".DS_Store"] [] = false ∧
    trashCond [".DS_Store"] = true ∧
    "/r" ∉ scanResults "/r" nestedIgnoredTree ∧
    move_one (PathState.present [".DS_Store"] none) = (TrashOutcome.moved, true) := by
  refine ⟨rfl, rfl, ?_, rfl⟩
  decide

/-- Claim C10: for every tree, pass 1's total is the number of proper
subdirectories of the root (the root not counted), pass 2's processed
counter ends at the number of all visited directories including the
root, so at normal completion the processed counter equals the reported
maximum plus one and strictly exceeds it. -/
theorem c10_off_by_one_progress (p : String) (t : FSTree) :
    pass1 none (walkTD p t) 0 0 = some (properSubdirCount t) ∧
    (pass2 none (walkBU p t) ((walkTD p t).length + 1) 0 []).2.1 = numNodes t ∧
    numNodes t = properSubdirCount t + 1 ∧
    properSubdirCount t < numNodes t := by
  have hsum : sumDirs (walkTD p t) + 1 = numNodes t := sumDirs_walkTD p t
  have hcount : numNodes t = properSubdirCount t + 1 := by
    cases t with
    | mk n fs subs =>
      simp only [numNodes, properSubdirCount, FSTree.subdirs]
      omega
  refine ⟨?_, ?_, hcount, by omega⟩
  · rw [pass1_none_eval]
    congr 1
    omega
  · rw [pass2_processed, walkBU_length]
    omega

end VoidFinder
